import Mathlib

/-!
Verification of the Harmonic bulk-membership job engine and its frontend.

The repository ships the frontend source (API client, `useJobSSE` hook,
`CompanyTable` component) together with the design spec of the backend job
engine.  The backend implementation itself (FastAPI `JobManager`, strategies,
event log) is not part of the shipped sources, so the engine is modelled
faithfully from the spec's words; frontend definitions are translated
directly from the TypeScript sources.
-/

namespace Harmonic

/-- Modelled from the spec: a membership row is a pair
(collection id, record id), unique per pair. -/
abbrev Row := String × Nat

/-- Modelled from the spec: job lifecycle states
`queued → running → {completed | failed | cancelled}`. -/
inductive JobState
  | queued
  | running
  | completed
  | failed
  | cancelled
deriving DecidableEq, Repr

/-- Modelled from the spec: the three right-hand states are terminal. -/
def JobState.isTerminal : JobState → Bool
  | .completed => true
  | .failed => true
  | .cancelled => true
  | _ => false

/-- Modelled from the spec: derived `progress` = `done/total*100`
(0 when `total` is 0). -/
def progressOf (done total : Nat) : ℚ :=
  if total = 0 then 0 else (done : ℚ) / (total : ℚ) * 100

/-- Modelled from the spec: a progress snapshot carries `done`, `total`,
`state`, `progress`. -/
structure Snapshot where
  done : Nat
  total : Nat
  state : JobState
  progress : ℚ
deriving DecidableEq, Repr

/-- Modelled from the spec: snapshots are published with the derived
progress value. -/
def mkSnapshot (done total : Nat) (st : JobState) : Snapshot :=
  ⟨done, total, st, progressOf done total⟩

/-- Chunk size used by the chunked strategy (1000 companies per chunk,
per the changelog and spec: "hundreds to low thousands of ids"). -/
def BATCH_SIZE : Nat := 1000

/-- Split a list into chunks of size `b + 1`, structurally via fuel so the
definition computes.  `fuel` must be at least the list length. -/
def chunkListAux (b : Nat) : Nat → List Nat → List (List Nat)
  | _, [] => []
  | 0, l => [l]
  | fuel + 1, x :: xs =>
      (x :: xs).take (b + 1) :: chunkListAux b fuel ((x :: xs).drop (b + 1))

/-- Split a list into chunks of size `b + 1`. -/
def chunkList (b : Nat) (l : List Nat) : List (List Nat) :=
  chunkListAux b l.length l

/-- Modelled from the spec: the chunked strategy's fixed-size batches of
the deduplicated id list. -/
def batchesOf (ids : List Nat) : List (List Nat) :=
  chunkList (BATCH_SIZE - 1) ids.dedup

/-- Modelled from the spec: the Membership Store's chunked upsert.  The
uniqueness constraint on (collection, record) makes re-insertion of an
existing membership a no-op; returns the new membership list together with
the rows actually created. -/
def upsertRows (mems : List Row) (target : String) (ids : List Nat) :
    List Row × List Row :=
  let newRows := (ids.filter (fun i => decide ((target, i) ∉ mems))).map
    (fun i => (target, i))
  (mems ++ newRows, newRows)

/-- Outcome of executing one job's unit of work. -/
structure RunResult where
  mems : List Row
  added : List Row
  doneCount : Nat
  totalCount : Nat
  finalState : JobState
  snaps : List Snapshot
deriving DecidableEq, Repr

/-- Modelled from the spec: the cancellation flag, requested during batch
`j` (1-indexed), is visible at every chunk boundary from the end of batch
`j` on. -/
def cancelSeen : Option Nat → Nat → Bool
  | none, _ => false
  | some j, k => decide (j ≤ k)

/-- Modelled from the spec: the chunked strategy's main loop.  For each
batch it issues one upsert, advances `done` by the batch's cardinality and
publishes a progress snapshot; between batches it checks the cancellation
flag and, if set, stops without processing the remaining batches and
publishes the terminal `cancelled` snapshot.  When all batches are done it
publishes the terminal `completed` snapshot. -/
def runBatches (target : String) (total : Nat) (cancelAt : Option Nat) :
    List (List Nat) → Nat → Nat → List Row → List Row → RunResult
  | [], done, _, mems, added =>
      { mems := mems, added := added, doneCount := done, totalCount := total,
        finalState := .completed,
        snaps := [mkSnapshot done total .completed] }
  | batch :: rest, done, k, mems, added =>
      let p := upsertRows mems target batch
      let done2 := done + batch.length
      if cancelSeen cancelAt (k + 1) then
        { mems := p.1, added := added ++ p.2, doneCount := done2,
          totalCount := total, finalState := .cancelled,
          snaps := [mkSnapshot done2 total .running,
                    mkSnapshot done2 total .cancelled] }
      else
        let r := runBatches target total cancelAt rest done2 (k + 1) p.1
          (added ++ p.2)
        { r with snaps := mkSnapshot done2 total .running :: r.snaps }

/-- Modelled from the spec: the chunked strategy — duplicates collapsed up
front, `total` fixed as the count of unique target ids. -/
def runChunked (target : String) (ids : List Nat) (cancelAt : Option Nat)
    (mems : List Row) : RunResult :=
  let uids := ids.dedup
  runBatches target uids.length cancelAt (batchesOf ids) 0 0 mems []

/-- The record ids currently members of collection `c`. -/
def membersOf (mems : List Row) (c : String) : List Nat :=
  (mems.filter (fun r => decide (r.1 = c))).map (·.2)

/-- Modelled from the spec: the set-based strategy — one store-side
operation copying all memberships of the source into the target, skipping
duplicates; `done` jumps from 0 to `total` and the only published
snapshots are the initial and terminal ones. -/
def runSetBased (source target : String) (mems : List Row) : RunResult :=
  let srcIds := membersOf mems source
  let total := srcIds.length
  let p := upsertRows mems target srcIds
  { mems := p.1, added := p.2, doneCount := total, totalCount := total,
    finalState := .completed,
    snaps := [mkSnapshot total total .completed] }

/-- Modelled from the spec: the full published lifecycle of a job —
`queued`, then `running` at 0, then the strategy's snapshots. -/
def fullTrace (r : RunResult) : List Snapshot :=
  mkSnapshot 0 r.totalCount .queued :: mkSnapshot 0 r.totalCount .running ::
    r.snaps

/-- The published snapshot trace of a chunked job. -/
def chunkedTrace (target : String) (ids : List Nat) (cancelAt : Option Nat)
    (mems : List Row) : List Snapshot :=
  fullTrace (runChunked target ids cancelAt mems)

/-- The published snapshot trace of a set-based job. -/
def setTrace (source target : String) (mems : List Row) : List Snapshot :=
  fullTrace (runSetBased source target mems)

/-- Modelled from the spec: event types recorded in the append-only
Event Log. -/
inductive EventType
  | bulk_add
  | undo
  | cancel
  | completed
  | error
deriving DecidableEq, Repr

/-- Modelled from the spec: an Event Log entry; for a completed bulk
mutation its metadata carries the exact set of membership rows created. -/
structure Event where
  id : Nat
  jobId : Option Nat
  etype : EventType
  collectionId : String
  addedRows : List Row
deriving DecidableEq, Repr

/-- Modelled from the spec: a Job record in the Job Registry. -/
structure Job where
  id : Nat
  name : String
  state : JobState
  done : Nat
  total : Nat
  errorMessage : Option String
  idemKey : Option String
deriving DecidableEq, Repr

/-- Modelled from the spec: the engine-visible state — Membership Store
rows, Job Registry, Event Log (newest entry first) and the idempotency
key table, plus fresh-id counters. -/
structure SysState where
  mems : List Row
  jobs : List Job
  events : List Event
  idem : List (String × Nat)
  nextJobId : Nat
  nextEventId : Nat
deriving DecidableEq, Repr

/-- A bulk-add request: the target collection (the path parameter of
`POST /jobs/collections/{id}/add`) together with the body fields of
`IAddCompaniesRequest` from the frontend client. -/
structure AddRequest where
  targetCollectionId : Option String
  select_all : Bool
  source_collection_id : Option String
  company_ids : Option (List Nat)
deriving DecidableEq, Repr

/-- Modelled from the spec: the error taxonomy relevant to the claims. -/
inductive ApiError
  | validationError
  | notFound
  | conflict
  | storeFailure
deriving DecidableEq, Repr

/-- Modelled from the spec: a submit request is valid when it names a
target collection and exactly one of an explicit id list or a
"select all from source collection" directive. -/
def AddRequest.wellFormed (r : AddRequest) : Bool :=
  r.targetCollectionId.isSome &&
    ((r.company_ids.isSome && !r.select_all) ||
      (r.select_all && r.company_ids.isNone && r.source_collection_id.isSome))

/-- Look up the job id an idempotency key maps to. -/
def lookupIdem (s : SysState) (k : String) : Option Nat :=
  (s.idem.find? (fun p => decide (p.1 = k))).map (·.2)

/-- Look up a job record by id in the Job Registry. -/
def findJob (s : SysState) (jid : Nat) : Option Job :=
  s.jobs.find? (fun j => decide (j.id = jid))

/-- Result of a submit call: rejected with an error, an existing job id
returned for a replayed idempotency key, or a freshly created job. -/
inductive SubmitOutcome
  | rejected (e : ApiError)
  | existing (jid : Nat)
  | created (jid : Nat)
deriving DecidableEq, Repr

/-- Modelled from the spec: create a fresh Job record in `queued` state
and record the idempotency key mapping when one is supplied. -/
def createJob (s : SysState) (key : Option String) :
    SubmitOutcome × SysState :=
  let j : Job := { id := s.nextJobId, name := "bulk_add", state := .queued,
                   done := 0, total := 0, errorMessage := none,
                   idemKey := key }
  let idem2 := match key with
    | some k => (k, j.id) :: s.idem
    | none => s.idem
  (.created j.id,
   { s with jobs := j :: s.jobs, idem := idem2,
            nextJobId := s.nextJobId + 1 })

/-- Modelled from the spec: `submit` validates the request (rejecting
malformed ones before any Job is created); if an idempotency key is
supplied and already maps to a non-expired job, it returns the existing
job id without creating new work; otherwise it creates a queued Job. -/
def submit (s : SysState) (r : AddRequest) (key : Option String) :
    SubmitOutcome × SysState :=
  if !r.wellFormed then (.rejected .validationError, s)
  else
    match key with
    | some k =>
        match lookupIdem s k with
        | some jid =>
            if (findJob s jid).isSome then (.existing jid, s)
            else createJob s key
        | none => createJob s key
    | none => createJob s key

/-- Modelled from the spec: on finishing a job's unit of work the engine
writes the terminal state and counters into the Job record and appends an
Event — a `bulk_add` Event carrying the exact rows created when the job
completed, a `cancel` Event otherwise. -/
def finishJob (s : SysState) (jid : Nat) (target : String) (r : RunResult) :
    SysState :=
  let ev : Event :=
    { id := s.nextEventId, jobId := some jid,
      etype := if r.finalState = .completed then .bulk_add else .cancel,
      collectionId := target, addedRows := r.added }
  { s with
    mems := r.mems,
    jobs := s.jobs.map (fun j =>
      if j.id = jid then
        { j with state := r.finalState, done := r.doneCount,
                 total := r.totalCount }
      else j),
    events := ev :: s.events,
    nextEventId := s.nextEventId + 1 }

/-- Modelled from the spec: submit a request and, when a fresh job was
created, run its unit of work to its terminal state (the strategy is
chosen from the request shape: explicit id list → chunked, select-all →
set-based), then record the outcome and its Event. -/
def execAdd (s : SysState) (r : AddRequest) (key : Option String)
    (cancelAt : Option Nat) : SubmitOutcome × SysState :=
  match submit s r key with
  | (.created jid, s1) =>
      let target := r.targetCollectionId.getD ""
      let run :=
        match r.company_ids with
        | some ids => runChunked target ids cancelAt s1.mems
        | none =>
            runSetBased (r.source_collection_id.getD "") target s1.mems
      (.created jid, finishJob s1 jid target run)
  | other => other

/-- Modelled from the spec: the most recent undoable Event for a
collection — the newest `bulk_add`/`undo`-typed Event for it, provided
that Event is a `bulk_add` (a newer `undo` means nothing is undoable). -/
def undoTarget (s : SysState) (c : String) : Option Event :=
  match s.events.find? (fun e => decide (e.collectionId = c) &&
      (decide (e.etype = .bulk_add) || decide (e.etype = .undo))) with
  | some e => if e.etype = .bulk_add then some e else none
  | none => none

/-- Modelled from the spec: `undo(collection_id)` removes exactly the
membership rows the most recent `bulk_add` Event recorded as added and
appends an `undo` Event; fails with NotFound when no undoable event
exists for that collection. -/
def undoOp (s : SysState) (c : String) : Except ApiError Unit × SysState :=
  match undoTarget s c with
  | none => (.error .notFound, s)
  | some e =>
      let ev : Event := { id := s.nextEventId, jobId := e.jobId,
                          etype := .undo, collectionId := c,
                          addedRows := e.addedRows }
      (.ok (),
       { s with
         mems := s.mems.filter (fun m => decide (m ∉ e.addedRows)),
         events := ev :: s.events,
         nextEventId := s.nextEventId + 1 })

/-- The dry-run estimate returned to the caller
(`IDryRunResponse` shape). -/
structure DryRunEstimate where
  estimated_new_companies : Nat
  already_existing : Nat
  estimated_time_ms : Nat
deriving DecidableEq, Repr

/-- The simulated storage throttle: 100 ms per insert (README). -/
def THROTTLE_MS : Nat := 100

/-- Modelled from the spec: the Dry-Run Estimator — computes, read-only,
how many requested ids are new vs. already members of the destination and
projects a duration from the throttle; it never creates a Job and touches
neither the Event Log nor the Job Registry. -/
def dryRunOp (s : SysState) (r : AddRequest) :
    Except ApiError DryRunEstimate × SysState :=
  if !r.wellFormed then (.error .validationError, s)
  else
    let target := r.targetCollectionId.getD ""
    let ids :=
      match r.company_ids with
      | some l => l.dedup
      | none => membersOf s.mems (r.source_collection_id.getD "")
    let newIds := ids.filter (fun i => decide ((target, i) ∉ s.mems))
    (.ok { estimated_new_companies := newIds.length,
           already_existing := ids.length - newIds.length,
           estimated_time_ms := newIds.length * THROTTLE_MS }, s)

/-- The job-status view returned by `GET /jobs/{id}`
(`IJobStatus` shape, ids as naturals). -/
structure StatusView where
  id : Nat
  state : JobState
  done : Nat
  total : Nat
  progress : ℚ
deriving DecidableEq, Repr

/-- Modelled from the spec: the status snapshot of a Job, with the
derived progress field. -/
def statusOf (j : Job) : StatusView :=
  { id := j.id, state := j.state, done := j.done, total := j.total,
    progress := progressOf j.done j.total }

/-- Modelled from the spec: `get_status(job_id)` — point-in-time
snapshot, NotFound when unknown. -/
def getStatus (s : SysState) (jid : Nat) : Except ApiError StatusView :=
  match findJob s jid with
  | some j => .ok (statusOf j)
  | none => .error .notFound

/-! Frontend: `useJobSSE.ts`.  An SSE message body after `JSON.parse`,
restricted to the fields the hook reads; `none` models an absent field. -/

/-- A parsed SSE message as read by `useJobSSE`'s `onmessage` handler. -/
structure SSEData where
  type : Option String
  done : Option Nat
  total : Option Nat
  state : Option String
  progress : Option ℚ
  error : Option String
deriving DecidableEq, Repr

/-- The `JobProgress` record of `useJobSSE.ts`. -/
structure JobProgress where
  done : Nat
  total : Nat
  state : String
  progress : ℚ
  error : Option String
deriving DecidableEq, Repr

/-- JavaScript `v || dflt` on a string-valued field: an absent or empty
string falls back to the default. -/
def jsOrString (v : Option String) (dflt : String) : String :=
  match v with
  | some str => if str = "" then dflt else str
  | none => dflt

/-- The body of `eventSource.onmessage` in `useJobSSE.ts`: a `keepalive`
message is dropped; otherwise `onProgress` is invoked with each missing
numeric field defaulted to 0 and a missing state defaulted to
`"unknown"`.  Returns the argument passed to `onProgress`, or `none` when
the callback is not invoked. -/
def handleSSEMessage (d : SSEData) : Option JobProgress :=
  if d.type = some "keepalive" then none
  else
    some { done := d.done.getD 0, total := d.total.getD 0,
           state := jsOrString d.state "unknown",
           progress := d.progress.getD 0, error := d.error }

/-! Frontend: `CompanyTable` (collection metadata, move-target dropdown
and the component state the move handlers read). -/

/-- Collection metadata as rendered by the dropdown (`ICollection`
fields used). -/
structure CollectionMeta where
  id : String
  collection_name : String
deriving DecidableEq, Repr

/-- The move-target dropdown contents:
`props.collections.filter(col => col.id !== props.selectedCollectionId)`. -/
def moveTargetOptions (collections : List CollectionMeta)
    (selectedId : String) : List CollectionMeta :=
  collections.filter (fun c => decide (c.id ≠ selectedId))

/-- The `CompanyTable` state the move handlers read:
`selectedCollectionId` (prop), `targetCollectionId` and `selectedRows`
(component state). -/
structure TableState where
  selectedCollectionId : String
  targetCollectionId : String
  selectedRows : List Nat
deriving DecidableEq, Repr

/-- User interactions affecting that state: choosing a move target from
the dropdown, switching the viewed collection in the sidebar, and
changing the row selection. -/
inductive UIEvent
  | chooseTarget (t : String)
  | switchCollection (c : String)
  | setRows (rows : List Nat)
deriving DecidableEq, Repr

/-- One state transition of `CompanyTable`.  Choosing a target only
accepts values the dropdown offers; switching collections resets the row
selection (the `useEffect` on `props.selectedCollectionId`) but leaves
`targetCollectionId` untouched, as in the source. -/
def uiStep (collections : List CollectionMeta) (s : TableState) :
    UIEvent → TableState
  | .chooseTarget t =>
      if t ∈ (moveTargetOptions collections s.selectedCollectionId).map
          (·.id) then
        { s with targetCollectionId := t }
      else s
  | .switchCollection c =>
      { s with selectedCollectionId := c, selectedRows := [] }
  | .setRows rows => { s with selectedRows := rows }

/-- Run a sequence of interactions from an initial state. -/
def uiRun (collections : List CollectionMeta) (s0 : TableState)
    (evs : List UIEvent) : TableState :=
  evs.foldl (uiStep collections) s0

/-- The (source, target) pair of the request `handleAdvancedMoveAll` /
`handleMoveAll` issue: guarded only by `if (!targetCollectionId) return`,
the body sends `source_collection_id = props.selectedCollectionId` to
target `targetCollectionId`. -/
def issuedMoveAllRequest (s : TableState) : Option (String × String) :=
  if s.targetCollectionId = "" then none
  else some (s.selectedCollectionId, s.targetCollectionId)

/-! Concrete sample fixtures used to exercise the theorems on explicit
inputs. -/

/-- A sample running job produced by a prior submission. -/
def jobFix : Job :=
  { id := 7, name := "bulk_add", state := .running, done := 0, total := 3,
    errorMessage := none, idemKey := some "key1" }

/-- A sample state in which idempotency key `"key1"` maps to job 7. -/
def stateIdemFix : SysState :=
  { mems := [], jobs := [jobFix], events := [], idem := [("key1", 7)],
    nextJobId := 8, nextEventId := 0 }

/-- A sample well-formed explicit-id-list request targeting `"B"`. -/
def reqExplicitFix : AddRequest :=
  { targetCollectionId := some "B", select_all := false,
    source_collection_id := none, company_ids := some [1, 2, 3] }

/-- A sample malformed request supplying both an id list and the
select-all directive. -/
def reqBothFix : AddRequest :=
  { targetCollectionId := some "B", select_all := true,
    source_collection_id := some "A", company_ids := some [1] }

/-- A sample empty system state. -/
def emptyStateFix : SysState :=
  { mems := [], jobs := [], events := [], idem := [], nextJobId := 0,
    nextEventId := 0 }

/-- A sample state whose destination collection `"B"` already holds
record 5. -/
def stateAFix : SysState :=
  { mems := [("B", 5)], jobs := [], events := [], idem := [],
    nextJobId := 0, nextEventId := 0 }

/-- A state with the same memberships as `stateAFix` but a different
registry, event log and idempotency table. -/
def stateBFix : SysState :=
  { mems := [("B", 5)], jobs := [jobFix], events := [], idem := [("x", 3)],
    nextJobId := 4, nextEventId := 2 }

/-- A sample dry-run request. -/
def reqDryFix : AddRequest :=
  { targetCollectionId := some "B", select_all := false,
    source_collection_id := none, company_ids := some [5, 6] }

/-- A sample parsed keepalive SSE message. -/
def sseKeepFix : SSEData :=
  { type := some "keepalive", done := some 3, total := some 5,
    state := some "running", progress := some 60, error := none }

/-- A sample parsed SSE message with every optional payload field
absent. -/
def sseMissFix : SSEData :=
  { type := some "progress", done := none, total := none, state := none,
    progress := none, error := none }

/-- Well-behaved unit-of-work outcome: a nonempty snapshot trace whose
non-final snapshots are all `running`, ending in the single terminal
snapshot, with `done` values between `lo` and `total`, non-decreasing,
and the derived progress on every snapshot. -/
def TraceOk (lo total : Nat) (r : RunResult) : Prop :=
  r.snaps ≠ [] ∧
  (∀ sn ∈ r.snaps.dropLast, sn.state = .running) ∧
  r.snaps.getLast? = some (mkSnapshot r.doneCount total r.finalState) ∧
  r.finalState.isTerminal = true ∧
  (∀ sn ∈ r.snaps, sn.total = total ∧ sn.progress = progressOf sn.done total ∧
    lo ≤ sn.done ∧ sn.done ≤ total) ∧
  List.Chain' (fun a b => a.done ≤ b.done) r.snaps

/-- The job-lifecycle invariant over a published snapshot trace: `done`
never decreases between successive snapshots, a terminal state appears
only as the very last snapshot (so nothing changes after it), a terminal
snapshot is reached, and `done ≤ total` throughout. -/
def LifecycleOk (t : List Snapshot) : Prop :=
  List.Chain' (fun a b => a.done ≤ b.done) t ∧
  (∀ sn ∈ t.dropLast, sn.state.isTerminal = false) ∧
  (∃ la, t.getLast? = some la ∧ la.state.isTerminal = true) ∧
  (∀ sn ∈ t, sn.done ≤ sn.total)

/-- What a subscriber that joins at position `i` receives: every snapshot
pushed from then on, in the order pushed. -/
def subscriberView (t : List Snapshot) (i : Nat) : List Snapshot :=
  t.drop i

/-- The delivery guarantee for one subscriber: snapshots arrive in
non-decreasing `done` order, exactly one of them is terminal, and the
terminal one is the last (the channel closes after it). -/
def SubscriberOk (rcv : List Snapshot) : Prop :=
  List.Chain' (fun a b => a.done ≤ b.done) rcv ∧
  rcv.countP (fun sn => sn.state.isTerminal) = 1 ∧
  (∃ la, rcv.getLast? = some la ∧ la.state.isTerminal = true)

/-! Helper lemmas about chunking. -/

lemma chunkListAux_join (b : Nat) :
    ∀ fuel l, l.length ≤ fuel → (chunkListAux b fuel l).flatten = l := by
  intro fuel
  induction fuel with
  | zero =>
      intro l hl
      have : l = [] := List.length_eq_zero.mp (Nat.le_zero.mp hl)
      subst this
      simp [chunkListAux]
  | succ f ih =>
      intro l hl
      cases l with
      | nil => simp [chunkListAux]
      | cons x xs =>
          have hdrop : ((x :: xs).drop (b + 1)).length ≤ f := by
            simp only [List.length_drop, List.length_cons]
            simp only [List.length_cons] at hl
            omega
          simp only [chunkListAux, List.flatten]
          rw [ih _ hdrop, List.take_append_drop]

lemma chunkList_join (b : Nat) (l : List Nat) : (chunkList b l).flatten = l :=
  chunkListAux_join b l.length l le_rfl

lemma chunkListAux_take_join (b : Nat) :
    ∀ fuel l j, l.length ≤ fuel →
      ((chunkListAux b fuel l).take j).flatten = l.take (j * (b + 1)) := by
  intro fuel
  induction fuel with
  | zero =>
      intro l j hl
      have : l = [] := List.length_eq_zero.mp (Nat.le_zero.mp hl)
      subst this
      simp [chunkListAux]
  | succ f ih =>
      intro l j hl
      cases l with
      | nil => simp [chunkListAux]
      | cons x xs =>
          cases j with
          | zero => simp
          | succ m =>
              have hdrop : ((x :: xs).drop (b + 1)).length ≤ f := by
                simp only [List.length_drop, List.length_cons]
                simp only [List.length_cons] at hl
                omega
              have hmul : (m + 1) * (b + 1) = (b + 1) + m * (b + 1) := by
                ring
              simp only [chunkListAux, List.take_succ_cons, List.flatten]
              rw [ih _ m hdrop, hmul, List.take_add]
              simp [List.take_succ_cons]

lemma chunkList_take_join (b : Nat) (l : List Nat) (j : Nat) :
    ((chunkList b l).take j).flatten = l.take (j * (b + 1)) :=
  chunkListAux_take_join b l.length l j le_rfl

lemma chunkList_sum_length (b : Nat) (l : List Nat) :
    ((chunkList b l).map List.length).sum = l.length := by
  rw [← List.length_flatten, chunkList_join]

lemma chunkList_take_sum_length (b : Nat) (l : List Nat) (j : Nat) :
    (((chunkList b l).take j).map List.length).sum =
      min (j * (b + 1)) l.length := by
  rw [← List.length_flatten, chunkList_take_join, List.length_take]

lemma chunkListAux_ne_nil (b : Nat) :
    ∀ fuel l c, c ∈ chunkListAux b fuel l → c ≠ [] := by
  intro fuel
  induction fuel with
  | zero =>
      intro l c hc
      cases l with
      | nil => simp [chunkListAux] at hc
      | cons x xs =>
          simp only [chunkListAux, List.mem_singleton] at hc
          subst hc
          simp
  | succ f ih =>
      intro l c hc
      cases l with
      | nil => simp [chunkListAux] at hc
      | cons x xs =>
          simp only [chunkListAux, List.mem_cons] at hc
          rcases hc with hc | hc
          · subst hc
            simp [List.take_succ_cons]
          · exact ih _ c hc

lemma chunkList_lt_length (b : Nat) (l : List Nat) (j : Nat)
    (h : j < (chunkList b l).length) : j * (b + 1) < l.length := by
  have hsplit : ((chunkList b l).map List.length).sum =
      (((chunkList b l).take j).map List.length).sum +
        (((chunkList b l).drop j).map List.length).sum := by
    rw [← List.sum_append, ← List.map_append, List.take_append_drop]
  rw [chunkList_sum_length, chunkList_take_sum_length] at hsplit
  have hne : (chunkList b l).drop j ≠ [] := by
    intro hnil
    have := congrArg List.length hnil
    simp only [List.length_drop, List.length_nil] at this
    omega
  obtain ⟨c, cs, hcs⟩ := List.exists_cons_of_ne_nil hne
  have hcmem : c ∈ chunkList b l :=
    List.mem_of_mem_drop (by rw [hcs]; exact List.mem_cons_self _ _)
  have hcne : c ≠ [] := chunkListAux_ne_nil b _ _ c hcmem
  have hcpos : 0 < c.length := List.length_pos.mpr hcne
  have hdsum : 0 < (((chunkList b l).drop j).map List.length).sum := by
    rw [hcs]
    simp only [List.map_cons, List.sum_cons]
    omega
  rcases Nat.le_total (j * (b + 1)) l.length with hle | hle
  · rw [Nat.min_eq_left hle] at hsplit
    omega
  · rw [Nat.min_eq_right hle] at hsplit
    omega

/-! Helper lemmas about the Membership Store upsert. -/

lemma upsertRows_fst (mems : List Row) (target : String) (ids : List Nat) :
    (upsertRows mems target ids).1 = mems ++ (upsertRows mems target ids).2 :=
  rfl

lemma upsertRows_mem (mems : List Row) (target : String) (ids : List Nat) :
    ∀ x ∈ (upsertRows mems target ids).2,
      x ∉ mems ∧ x.1 = target ∧ x.2 ∈ ids := by
  intro x hx
  simp only [upsertRows, List.mem_map, List.mem_filter,
    decide_eq_true_eq] at hx
  obtain ⟨i, ⟨hi, hni⟩, rfl⟩ := hx
  exact ⟨hni, rfl, hi⟩

/-! Helper lemmas about the chunked strategy's main loop. -/

lemma runBatches_mems (target : String) (total : Nat) (cancelAt : Option Nat) :
    ∀ (bs : List (List Nat)) (done k : Nat) (mems added : List Row),
      ∃ extra,
        (runBatches target total cancelAt bs done k mems added).mems =
          mems ++ extra ∧
        (runBatches target total cancelAt bs done k mems added).added =
          added ++ extra ∧
        ∀ x ∈ extra, x ∉ mems ∧ x.1 = target ∧ x.2 ∈ bs.flatten := by
  intro bs
  induction bs with
  | nil =>
      intro done k mems added
      exact ⟨[], by simp [runBatches]⟩
  | cons batch rest ih =>
      intro done k mems added
      by_cases hc : cancelSeen cancelAt (k + 1) = true
      · refine ⟨(upsertRows mems target batch).2, ?_, ?_, ?_⟩
        · simp only [runBatches, hc, if_true]
          exact upsertRows_fst mems target batch
        · simp only [runBatches, hc, if_true]
        · intro x hx
          obtain ⟨h1, h2, h3⟩ := upsertRows_mem mems target batch x hx
          refine ⟨h1, h2, ?_⟩
          simp only [List.flatten_cons, List.mem_append]
          exact Or.inl h3
      · obtain ⟨extra, he1, he2, he3⟩ :=
          ih (done + batch.length) (k + 1) (upsertRows mems target batch).1
            (added ++ (upsertRows mems target batch).2)
        refine ⟨(upsertRows mems target batch).2 ++ extra, ?_, ?_, ?_⟩
        · simp only [runBatches, hc, if_false, Bool.false_eq_true]
          rw [he1, upsertRows_fst mems target batch, List.append_assoc]
        · simp only [runBatches, hc, if_false, Bool.false_eq_true]
          rw [he2, List.append_assoc]
        · intro x hx
          rcases List.mem_append.mp hx with hx | hx
          · obtain ⟨h1, h2, h3⟩ := upsertRows_mem mems target batch x hx
            refine ⟨h1, h2, ?_⟩
            simp only [List.flatten_cons, List.mem_append]
            exact Or.inl h3
          · obtain ⟨h1, h2, h3⟩ := he3 x hx
            rw [upsertRows_fst mems target batch] at h1
            refine ⟨fun hm => h1 (List.mem_append.mpr (Or.inl hm)), h2, ?_⟩
            simp only [List.flatten_cons, List.mem_append]
            exact Or.inr h3

lemma runBatches_none (target : String) (total : Nat) :
    ∀ (bs : List (List Nat)) (done k : Nat) (mems added : List Row),
      (runBatches target total none bs done k mems added).finalState =
        .completed ∧
      (runBatches target total none bs done k mems added).doneCount =
        done + (bs.map List.length).sum := by
  intro bs
  induction bs with
  | nil =>
      intro done k mems added
      simp [runBatches]
  | cons batch rest ih =>
      intro done k mems added
      have hc : cancelSeen none (k + 1) = false := rfl
      obtain ⟨ih1, ih2⟩ :=
        ih (done + batch.length) (k + 1) (upsertRows mems target batch).1
          (added ++ (upsertRows mems target batch).2)
      constructor
      · simp only [runBatches, hc, if_false, Bool.false_eq_true]
        exact ih1
      · simp only [runBatches, hc, if_false, Bool.false_eq_true, List.map_cons,
          List.sum_cons]
        rw [ih2]
        omega

lemma runBatches_totalCount (target : String) (total : Nat)
    (cancelAt : Option Nat) :
    ∀ (bs : List (List Nat)) (done k : Nat) (mems added : List Row),
      (runBatches target total cancelAt bs done k mems added).totalCount =
        total := by
  intro bs
  induction bs with
  | nil => intro done k mems added; simp [runBatches]
  | cons batch rest ih =>
      intro done k mems added
      by_cases hc : cancelSeen cancelAt (k + 1) = true
      · simp only [runBatches, hc, if_true]
      · simp only [runBatches, hc, if_false, Bool.false_eq_true]
        exact ih _ _ _ _

lemma runBatches_cancelled (target : String) (total : Nat) (j : Nat) :
    ∀ (bs : List (List Nat)) (done k : Nat) (mems added : List Row),
      k < j → j - k ≤ bs.length →
      (runBatches target total (some j) bs done k mems added).finalState =
        .cancelled ∧
      (runBatches target total (some j) bs done k mems added).doneCount =
        done + ((bs.take (j - k)).map List.length).sum ∧
      ∃ extra,
        (runBatches target total (some j) bs done k mems added).mems =
          mems ++ extra ∧
        (runBatches target total (some j) bs done k mems added).added =
          added ++ extra ∧
        ∀ x ∈ extra, x ∉ mems ∧ x.1 = target ∧
          x.2 ∈ (bs.take (j - k)).flatten := by
  intro bs
  induction bs with
  | nil =>
      intro done k mems added hk hlen
      simp only [List.length_nil] at hlen
      omega
  | cons batch rest ih =>
      intro done k mems added hk hlen
      by_cases hj : j ≤ k + 1
      · have hc : cancelSeen (some j) (k + 1) = true := by
          simp [cancelSeen, hj]
        have hjk : j - k = 1 := by omega
        rw [hjk]
        simp only [runBatches, hc, if_true, List.take_succ_cons,
          List.take_zero, List.map_cons, List.map_nil, List.sum_cons,
          List.sum_nil, List.flatten_cons, List.flatten_nil,
          List.append_nil]
        refine ⟨trivial, by omega, (upsertRows mems target batch).2,
          upsertRows_fst mems target batch, rfl, ?_⟩
        exact upsertRows_mem mems target batch
      · have hc : cancelSeen (some j) (k + 1) = false := by
          simp [cancelSeen]; omega
        have hk2 : k + 1 < j := by omega
        have hlen2 : j - (k + 1) ≤ rest.length := by
          simp only [List.length_cons] at hlen
          omega
        obtain ⟨ihf, ihd, extra, ihm, iha, ihp⟩ :=
          ih (done + batch.length) (k + 1) (upsertRows mems target batch).1
            (added ++ (upsertRows mems target batch).2) hk2 hlen2
        have hjk : j - k = (j - (k + 1)) + 1 := by omega
        rw [hjk]
        simp only [runBatches, hc, if_false, Bool.false_eq_true,
          List.take_succ_cons, List.map_cons, List.sum_cons,
          List.flatten_cons]
        refine ⟨ihf, by rw [ihd]; omega,
          (upsertRows mems target batch).2 ++ extra, ?_, ?_, ?_⟩
        · rw [ihm, upsertRows_fst mems target batch, List.append_assoc]
        · rw [iha, List.append_assoc]
        · intro x hx
          rcases List.mem_append.mp hx with hx | hx
          · obtain ⟨h1, h2, h3⟩ := upsertRows_mem mems target batch x hx
            exact ⟨h1, h2, List.mem_append.mpr (Or.inl h3)⟩
          · obtain ⟨h1, h2, h3⟩ := ihp x hx
            rw [upsertRows_fst mems target batch] at h1
            exact ⟨fun hm => h1 (List.mem_append.mpr (Or.inl hm)), h2,
              List.mem_append.mpr (Or.inr h3)⟩

lemma runBatches_trace (target : String) (total : Nat) (cancelAt : Option Nat) :
    ∀ (bs : List (List Nat)) (done k : Nat) (mems added : List Row),
      done + (bs.map List.length).sum = total →
      TraceOk done total
        (runBatches target total cancelAt bs done k mems added) := by
  intro bs
  induction bs with
  | nil =>
      intro done k mems added htot
      have hdone : done = total := by simpa using htot
      simp only [runBatches]
      refine ⟨by simp, ?_, by simp, by simp [JobState.isTerminal], ?_, by simp⟩
      · intro sn hsn
        simp at hsn
      · intro sn hsn
        simp only [List.mem_singleton] at hsn
        subst hsn
        exact ⟨rfl, rfl, le_refl _, by simp only [mkSnapshot]; omega⟩
  | cons batch rest ih =>
      intro done k mems added htot
      simp only [List.map_cons, List.sum_cons] at htot
      by_cases hc : cancelSeen cancelAt (k + 1) = true
      · simp only [runBatches, hc, if_true]
        have hle : done + batch.length ≤ total := by omega
        refine ⟨by simp, ?_, by simp, by simp [JobState.isTerminal], ?_, ?_⟩
        · intro sn hsn
          simp only [List.dropLast_cons₂, List.dropLast_single,
            List.mem_singleton] at hsn
          subst hsn
          rfl
        · intro sn hsn
          simp only [List.mem_cons, List.mem_singleton,
            List.not_mem_nil, or_false] at hsn
          rcases hsn with hsn | hsn <;>
            (subst hsn; exact ⟨rfl, rfl, Nat.le_add_right _ _, hle⟩)
        · simp [List.chain'_cons, mkSnapshot]
      · have htot2 : done + batch.length + (rest.map List.length).sum =
            total := by omega
        obtain ⟨h1, h2, h3, h4, h5, h6⟩ :=
          ih (done + batch.length) (k + 1) (upsertRows mems target batch).1
            (added ++ (upsertRows mems target batch).2) htot2
        simp only [runBatches, hc, if_false, Bool.false_eq_true]
        obtain ⟨c, cs, hcs⟩ := List.exists_cons_of_ne_nil h1
        refine ⟨by simp, ?_, ?_, h4, ?_, ?_⟩
        · intro sn hsn
          rw [hcs] at hsn
          simp only [List.dropLast_cons₂, List.mem_cons] at hsn
          rcases hsn with hsn | hsn
          · subst hsn; rfl
          · exact h2 sn (by rw [hcs]; simpa using hsn)
        · rw [hcs, List.getLast?_cons_cons, ← hcs]
          exact h3
        · intro sn hsn
          simp only [List.mem_cons] at hsn
          rcases hsn with hsn | hsn
          · subst hsn
            exact ⟨rfl, rfl, Nat.le_add_right _ _,
              by simp only [mkSnapshot]; omega⟩
          · obtain ⟨p1, p2, p3, p4⟩ := h5 sn hsn
            exact ⟨p1, p2, Nat.le_trans (Nat.le_add_right _ _) p3, p4⟩
        · rw [List.chain'_cons']
          refine ⟨?_, h6⟩
          intro y hy
          rw [hcs] at hy
          simp only [List.head?_cons, Option.mem_def, Option.some.injEq]
            at hy
          subst hy
          have hcmem : c ∈ (runBatches target total cancelAt rest
              (done + batch.length) (k + 1) (upsertRows mems target batch).1
              (added ++ (upsertRows mems target batch).2)).snaps := by
            rw [hcs]; exact List.mem_cons_self _ _
          exact (h5 c hcmem).2.2.1

/-! Helper lemmas about snapshot traces. -/

lemma chain'_drop {α : Type} (R : α → α → Prop) :
    ∀ (i : Nat) (l : List α), List.Chain' R l → List.Chain' R (l.drop i) := by
  intro i
  induction i with
  | zero => intro l h; exact h
  | succ n ihn =>
      intro l h
      rw [← List.tail_drop]
      exact (ihn l h).tail

lemma drop_one_terminal (t : List Snapshot)
    (hd : ∀ sn ∈ t.dropLast, sn.state.isTerminal = false)
    (hl : ∃ la, t.getLast? = some la ∧ la.state.isTerminal = true) :
    ∀ i, i < t.length →
      ((t.drop i).countP (fun sn => sn.state.isTerminal) = 1 ∧
        ∃ la, (t.drop i).getLast? = some la ∧ la.state.isTerminal = true) := by
  obtain ⟨la, hla, hterm⟩ := hl
  have hne : t ≠ [] := by
    intro h
    subst h
    simp at hla
  rw [List.getLast?_eq_getLast t hne] at hla
  have hlag : t.getLast hne = la := Option.some.inj hla
  have hdecomp : t.dropLast ++ [la] = t := by
    rw [← hlag]
    exact List.dropLast_append_getLast hne
  have hlen' : t.length = t.dropLast.length + 1 := by
    rw [← hdecomp]
    simp
  intro i hi
  have hile : i ≤ t.dropLast.length := by omega
  have hdrop : t.drop i = t.dropLast.drop i ++ [la] := by
    conv_lhs => rw [← hdecomp]
    rw [List.drop_append_eq_append_drop]
    have h0 : i - t.dropLast.length = 0 := by omega
    rw [h0, List.drop_zero]
  constructor
  · rw [hdrop, List.countP_append]
    have hz : (t.dropLast.drop i).countP (fun sn => sn.state.isTerminal)
        = 0 := by
      rw [List.countP_eq_zero]
      intro sn hsn
      simp only [hd sn (List.mem_of_mem_drop hsn), Bool.false_eq_true,
        not_false_eq_true]
    rw [hz]
    simp [List.countP_cons, hterm]
  · exact ⟨la, by rw [hdrop, List.getLast?_concat], hterm⟩

lemma fullTrace_lifecycleOk (r : RunResult)
    (h : TraceOk 0 r.totalCount r) : LifecycleOk (fullTrace r) := by
  obtain ⟨h1, h2, h3, h4, h5, h6⟩ := h
  obtain ⟨c, cs, hcs⟩ := List.exists_cons_of_ne_nil h1
  refine ⟨?_, ?_, ?_, ?_⟩
  · rw [fullTrace, List.chain'_cons]
    refine ⟨by simp [mkSnapshot], ?_⟩
    rw [List.chain'_cons']
    refine ⟨?_, h6⟩
    intro y hy
    rw [hcs] at hy
    simp only [List.head?_cons, Option.mem_def, Option.some.injEq] at hy
    subst hy
    simp [mkSnapshot]
  · intro sn hsn
    rw [fullTrace, hcs] at hsn
    simp only [List.dropLast_cons₂, List.mem_cons] at hsn
    rcases hsn with hsn | hsn | hsn
    · subst hsn; rfl
    · subst hsn; rfl
    · have := h2 sn (by rw [hcs]; simpa using hsn)
      rw [this]
      rfl
  · refine ⟨mkSnapshot r.doneCount r.totalCount r.finalState, ?_, h4⟩
    rw [fullTrace, hcs, List.getLast?_cons_cons, List.getLast?_cons_cons,
      ← hcs]
    exact h3
  · intro sn hsn
    rw [fullTrace] at hsn
    simp only [List.mem_cons] at hsn
    rcases hsn with hsn | hsn | hsn
    · subst hsn; simp [mkSnapshot]
    · subst hsn; simp [mkSnapshot]
    · obtain ⟨p1, p2, p3, p4⟩ := h5 sn hsn
      rw [p1]
      exact p4

lemma fullTrace_subscriberOk (r : RunResult)
    (h : TraceOk 0 r.totalCount r) :
    ∀ i, i < (fullTrace r).length →
      SubscriberOk (subscriberView (fullTrace r) i) := by
  intro i hi
  obtain ⟨hchain, hdl, hlast, _⟩ := fullTrace_lifecycleOk r h
  obtain ⟨hcnt, hla⟩ := drop_one_terminal (fullTrace r) hdl hlast i hi
  exact ⟨chain'_drop _ i _ hchain, hcnt, hla⟩

/-! Helper lemmas about the two strategies. -/

lemma batchesOf_sum (ids : List Nat) :
    ((batchesOf ids).map List.length).sum = ids.dedup.length :=
  chunkList_sum_length _ _

lemma runChunked_traceOk (target : String) (ids : List Nat)
    (cancelAt : Option Nat) (mems : List Row) :
    TraceOk 0 ids.dedup.length (runChunked target ids cancelAt mems) := by
  apply runBatches_trace
  rw [batchesOf_sum]
  omega

lemma runChunked_totalCount (target : String) (ids : List Nat)
    (cancelAt : Option Nat) (mems : List Row) :
    (runChunked target ids cancelAt mems).totalCount = ids.dedup.length :=
  runBatches_totalCount _ _ _ _ _ _ _ _

lemma runSetBased_traceOk (source target : String) (mems : List Row) :
    TraceOk 0 (runSetBased source target mems).totalCount
      (runSetBased source target mems) := by
  refine ⟨by simp [runSetBased], ?_, by simp [runSetBased], rfl, ?_, ?_⟩
  · intro sn hsn
    simp [runSetBased] at hsn
  · intro sn hsn
    simp only [runSetBased, List.mem_singleton] at hsn
    subst hsn
    exact ⟨rfl, rfl, by simp [mkSnapshot],
      by simp [mkSnapshot, runSetBased]⟩
  · simp [runSetBased]

lemma runChunked_traceOk' (target : String) (ids : List Nat)
    (cancelAt : Option Nat) (mems : List Row) :
    TraceOk 0 (runChunked target ids cancelAt mems).totalCount
      (runChunked target ids cancelAt mems) := by
  rw [runChunked_totalCount]
  exact runChunked_traceOk target ids cancelAt mems

/-! Helper lemmas about the engine operations. -/

lemma submit_preserves (s : SysState) (r : AddRequest) (key : Option String) :
    (submit s r key).2.mems = s.mems ∧
    (submit s r key).2.events = s.events ∧
    (submit s r key).2.nextEventId = s.nextEventId := by
  unfold submit createJob
  split
  · exact ⟨rfl, rfl, rfl⟩
  · split
    · split
      · split
        · exact ⟨rfl, rfl, rfl⟩
        · exact ⟨rfl, rfl, rfl⟩
      · exact ⟨rfl, rfl, rfl⟩
    · exact ⟨rfl, rfl, rfl⟩

/-- C2: for every idempotency key `k` and well-formed submit request
carrying `k`, if a prior submission with `k` produced a job that is still
in the registry (whether or not it is terminal), resubmission returns
that same job id, creates no new job, and never re-executes the mutation:
both `submit` and the full `execAdd` return the existing id and leave the
system state — including the Membership Store — exactly unchanged. -/
theorem c2_idempotent_resubmit (s : SysState) (r : AddRequest) (k : String)
    (jid : Nat) (j : Job) (cancelAt : Option Nat)
    (hwf : r.wellFormed = true) (hlook : lookupIdem s k = some jid)
    (hjob : findJob s jid = some j) :
    submit s r (some k) = (.existing jid, s) ∧
    execAdd s r (some k) cancelAt = (.existing jid, s) := by
  have hsub : submit s r (some k) = (.existing jid, s) := by
    unfold submit
    simp only [hwf, hlook, hjob, Bool.not_true, Bool.false_eq_true,
      if_false, Option.isSome_some, if_true]
  exact ⟨hsub, by rw [execAdd, hsub]⟩

/-- C2 witness: a concrete replayed idempotency key returns the existing
job id without any state change. -/
theorem c2_idempotent_resubmit_witness :
    submit stateIdemFix reqExplicitFix (some "key1") =
      (.existing 7, stateIdemFix) ∧
    execAdd stateIdemFix reqExplicitFix (some "key1") none =
      (.existing 7, stateIdemFix) :=
  c2_idempotent_resubmit stateIdemFix reqExplicitFix "key1" 7 jobFix none
    (by decide) (by decide) (by decide)

/-- C6: `submit` succeeds only for requests that name a target collection
and exactly one of an explicit company-id list or a select-all-from-source
directive; a request supplying both or neither is rejected with a
validation error and no Job record is created (the state is returned
unchanged). -/
theorem c6_submit_validation (s : SysState) (r : AddRequest)
    (key : Option String) :
    (r.wellFormed = true ↔
      (r.targetCollectionId.isSome = true ∧
        ((r.company_ids.isSome = true ∧ r.select_all = false) ∨
          (r.select_all = true ∧ r.company_ids = none ∧
            r.source_collection_id.isSome = true)))) ∧
    (r.wellFormed = false →
      submit s r key = (.rejected .validationError, s)) ∧
    (r.wellFormed = true →
      ∀ e s2, submit s r key ≠ (.rejected e, s2)) := by
  refine ⟨?_, ?_, ?_⟩
  · cases hsa : r.select_all <;>
      simp [AddRequest.wellFormed, hsa, Option.isNone_iff_eq_none]
  · intro hwf
    unfold submit
    rw [hwf]
    rfl
  · intro hwf e s2 h
    unfold submit createJob at h
    rw [hwf] at h
    simp only [Bool.not_true, Bool.false_eq_true, if_false] at h
    split at h
    · split at h
      · split at h
        · exact absurd h (by simp)
        · exact absurd h (by simp)
      · exact absurd h (by simp)
    · exact absurd h (by simp)

/-- C6 witness: a request supplying both an id list and the select-all
directive is rejected with a validation error and the state is returned
unchanged. -/
theorem c6_submit_validation_witness :
    submit emptyStateFix reqBothFix none =
      (.rejected .validationError, emptyStateFix) :=
  (c6_submit_validation emptyStateFix reqBothFix none).2.1 (by decide)

/-- C7: `dry_run` leaves all state unchanged — it creates no Job, writes
no membership row, and touches neither the Event Log nor the Job
Registry — and its returned estimate depends only on the request and the
membership rows (two states agreeing on memberships get the same
estimate). -/
theorem c7_dry_run_pure (s1 s2 : SysState) (r : AddRequest) :
    (dryRunOp s1 r).2 = s1 ∧
    (s1.mems = s2.mems → (dryRunOp s1 r).1 = (dryRunOp s2 r).1) := by
  constructor
  · unfold dryRunOp
    split
    · rfl
    · rfl
  · intro hm
    cases hwf : r.wellFormed <;> simp [dryRunOp, hwf, hm]

lemma fullTrace_progress (r : RunResult) (h : TraceOk 0 r.totalCount r) :
    ∀ sn ∈ fullTrace r, sn.progress = progressOf sn.done sn.total := by
  intro sn hsn
  rw [fullTrace] at hsn
  simp only [List.mem_cons] at hsn
  rcases hsn with hsn | hsn | hsn
  · subst hsn; rfl
  · subst hsn; rfl
  · obtain ⟨p1, p2, _, _⟩ := h.2.2.2.2.1 sn hsn
    rw [p2, p1]

/-- C8: the derived `progress` field equals `done / total * 100` and is 0
whenever `total` is 0 — both on every status snapshot returned by
`get_status` and on every snapshot of a published progress trace. -/
theorem c8_progress_formula (s : SysState) (jid : Nat) (v : StatusView)
    (target source : String) (ids : List Nat) (cancelAt : Option Nat)
    (mems : List Row) :
    (getStatus s jid = .ok v →
      v.progress =
        if v.total = 0 then 0 else (v.done : ℚ) / (v.total : ℚ) * 100) ∧
    (∀ sn ∈ chunkedTrace target ids cancelAt mems,
      sn.progress =
        if sn.total = 0 then 0 else (sn.done : ℚ) / (sn.total : ℚ) * 100) ∧
    (∀ sn ∈ setTrace source target mems,
      sn.progress =
        if sn.total = 0 then 0 else (sn.done : ℚ) / (sn.total : ℚ) * 100) := by
  refine ⟨?_, ?_, ?_⟩
  · intro h
    unfold getStatus at h
    split at h
    · have hv := Except.ok.inj h
      subst hv
      simp [statusOf, progressOf]
    · exact absurd h (by simp)
  · intro sn hsn
    rw [chunkedTrace] at hsn
    have := fullTrace_progress _ (runChunked_traceOk' target ids cancelAt
      mems) sn hsn
    rw [this, progressOf]
  · intro sn hsn
    rw [setTrace] at hsn
    have := fullTrace_progress _ (runSetBased_traceOk source target mems)
      sn hsn
    rw [this, progressOf]

/-- C8 witness: the status view of a concrete job satisfies the progress
formula. -/
theorem c8_progress_formula_witness :
    (statusOf jobFix).progress =
      if (statusOf jobFix).total = 0 then 0
      else ((statusOf jobFix).done : ℚ) / ((statusOf jobFix).total : ℚ)
        * 100 :=
  (c8_progress_formula stateIdemFix 7 (statusOf jobFix) "B" "A" [] none
    []).1 (by rfl)

/-- C3: over a job's full published lifecycle — for either strategy and
any cancellation behaviour — `done` never decreases between successive
snapshots, a terminal state appears only as the final snapshot (so once a
terminal value is reached nothing changes any more), a terminal snapshot
is reached, and `done ≤ total` throughout. -/
theorem c3_lifecycle (target source : String) (ids : List Nat)
    (cancelAt : Option Nat) (mems : List Row) :
    LifecycleOk (chunkedTrace target ids cancelAt mems) ∧
    LifecycleOk (setTrace source target mems) :=
  ⟨fullTrace_lifecycleOk _ (runChunked_traceOk' target ids cancelAt mems),
   fullTrace_lifecycleOk _ (runSetBased_traceOk source target mems)⟩

/-- C5: every subscriber that joins a job's progress stream before it
closes receives the snapshots pushed from then on in order: `done` is
non-decreasing along what it receives, exactly one received snapshot is
terminal, and that terminal snapshot is the last one (the channel closes
with it).  Holds for both strategies under any cancellation behaviour. -/
theorem c5_subscriber_stream (target source : String) (ids : List Nat)
    (cancelAt : Option Nat) (mems : List Row) (i1 i2 : Nat)
    (h1 : i1 < (chunkedTrace target ids cancelAt mems).length)
    (h2 : i2 < (setTrace source target mems).length) :
    SubscriberOk (subscriberView (chunkedTrace target ids cancelAt mems)
      i1) ∧
    SubscriberOk (subscriberView (setTrace source target mems) i2) :=
  ⟨fullTrace_subscriberOk _ (runChunked_traceOk' target ids cancelAt mems)
    i1 h1,
   fullTrace_subscriberOk _ (runSetBased_traceOk source target mems) i2 h2⟩

/-- C5 witness: concrete subscribers to a chunked job and a set-based job
receive well-formed streams. -/
theorem c5_subscriber_stream_witness :
    0 < (chunkedTrace "B" [1, 2] none [("A", 1)]).length ∧
    0 < (setTrace "A" "B" [("A", 1)]).length ∧
    SubscriberOk (subscriberView (chunkedTrace "B" [1, 2] none [("A", 1)])
      0) ∧
    SubscriberOk (subscriberView (setTrace "A" "B" [("A", 1)]) 0) :=
  ⟨by decide, by decide,
   (c5_subscriber_stream "B" "A" [1, 2] none [("A", 1)] 0 0 (by decide)
     (by decide)).1,
   (c5_subscriber_stream "B" "A" [1, 2] none [("A", 1)] 0 0 (by decide)
     (by decide)).2⟩

lemma runChunked_def (target : String) (ids : List Nat)
    (cancelAt : Option Nat) (mems : List Row) :
    runChunked target ids cancelAt mems =
      runBatches target ids.dedup.length cancelAt (batchesOf ids) 0 0 mems
        [] := rfl

lemma batch_size_eq : BATCH_SIZE - 1 + 1 = BATCH_SIZE := by
  norm_num [BATCH_SIZE]

/-- C4: cancelling a chunked job during batch `j` of `n` lets that batch
finish and then stops: the final state is `cancelled`, `done` is
`j * BATCH_SIZE` capped at `total` — exactly `j * BATCH_SIZE` whenever
`j < n`, and the full `total` when `j` was the last batch — only rows
from the first `j * BATCH_SIZE` requested ids were written (remaining
batches are not processed), and the cancellation snapshot is the last one
published — every earlier snapshot is a `running` one. -/
theorem c4_cancel_chunked (target : String) (ids : List Nat)
    (mems : List Row) (j : Nat) (hj1 : 1 ≤ j)
    (hj2 : j ≤ (batchesOf ids).length) :
    (runChunked target ids (some j) mems).finalState = .cancelled ∧
    (runChunked target ids (some j) mems).doneCount =
      min (j * BATCH_SIZE)
        (runChunked target ids (some j) mems).totalCount ∧
    ((runChunked target ids (some j) mems).doneCount = j * BATCH_SIZE ∨
      (runChunked target ids (some j) mems).doneCount =
        (runChunked target ids (some j) mems).totalCount) ∧
    (j < (batchesOf ids).length →
      (runChunked target ids (some j) mems).doneCount = j * BATCH_SIZE) ∧
    (runChunked target ids (some j) mems).mems =
      mems ++ (runChunked target ids (some j) mems).added ∧
    (∀ x ∈ (runChunked target ids (some j) mems).added,
      x.1 = target ∧ x.2 ∈ ids.dedup.take (j * BATCH_SIZE)) ∧
    (∃ la, (runChunked target ids (some j) mems).snaps.getLast? = some la ∧
      la.state = .cancelled) ∧
    (∀ sn ∈ (runChunked target ids (some j) mems).snaps.dropLast,
      sn.state = .running) := by
  obtain ⟨hf, hd, extra, hm, ha, hp⟩ :=
    runBatches_cancelled target ids.dedup.length j (batchesOf ids) 0 0 mems
      [] (by omega) (by simpa using hj2)
  rw [List.nil_append] at ha
  simp only [Nat.sub_zero] at hd hp
  have htc : (runChunked target ids (some j) mems).totalCount =
      ids.dedup.length := runChunked_totalCount _ _ _ _
  have hsum : (((batchesOf ids).take j).map List.length).sum =
      min (j * BATCH_SIZE) ids.dedup.length := by
    rw [batchesOf, chunkList_take_sum_length, batch_size_eq]
  have hflat : ((batchesOf ids).take j).flatten =
      ids.dedup.take (j * BATCH_SIZE) := by
    rw [batchesOf, chunkList_take_join, batch_size_eq]
  obtain ⟨ht1, ht2, ht3, ht4, ht5, ht6⟩ :=
    runBatches_trace target ids.dedup.length (some j) (batchesOf ids) 0 0
      mems [] (by rw [batchesOf_sum]; omega)
  rw [runChunked_def]
  refine ⟨hf, ?_, ?_, ?_, ?_, ?_, ?_, ?_⟩
  · rw [hd, hsum, Nat.zero_add, ← runChunked_def, htc]
  · rw [hd, hsum, Nat.zero_add]
    rw [← runChunked_def, htc]
    rcases Nat.le_total (j * BATCH_SIZE) ids.dedup.length with h | h
    · exact Or.inl (Nat.min_eq_left h)
    · exact Or.inr (Nat.min_eq_right h)
  · intro hlt
    rw [hd, hsum, Nat.zero_add]
    have hlen := chunkList_lt_length (BATCH_SIZE - 1) ids.dedup j
      (by rwa [batchesOf] at hlt)
    rw [batch_size_eq] at hlen
    exact Nat.min_eq_left (Nat.le_of_lt hlen)
  · rw [hm, ha]
  · intro x hx
    rw [ha] at hx
    obtain ⟨_, h2, h3⟩ := hp x hx
    rw [hflat] at h3
    exact ⟨h2, h3⟩
  · refine ⟨mkSnapshot (runBatches target ids.dedup.length (some j)
      (batchesOf ids) 0 0 mems []).doneCount ids.dedup.length
      (runBatches target ids.dedup.length (some j) (batchesOf ids) 0 0 mems
        []).finalState, ht3, ?_⟩
    rw [← runChunked_def] at hf ⊢
    rw [mkSnapshot, hf]
  · exact ht2

/-- C4 witness: cancelling a concrete three-id job during its only batch
leaves it `cancelled` with `done` equal to the full total. -/
theorem c4_cancel_chunked_witness :
    (runChunked "B" [1, 2, 3] (some 1) [("B", 2)]).finalState =
      .cancelled ∧
    (runChunked "B" [1, 2, 3] (some 1) [("B", 2)]).doneCount =
      min (1 * BATCH_SIZE)
        (runChunked "B" [1, 2, 3] (some 1) [("B", 2)]).totalCount :=
  ⟨(c4_cancel_chunked "B" [1, 2, 3] [("B", 2)] 1 (by decide)
      (by decide)).1,
   (c4_cancel_chunked "B" [1, 2, 3] [("B", 2)] 1 (by decide)
      (by decide)).2.1⟩

lemma filter_append_not_mem (base extra : List Row)
    (h : ∀ x ∈ extra, x ∉ base) :
    (base ++ extra).filter (fun m => decide (m ∉ extra)) = base := by
  rw [List.filter_append]
  have h1 : base.filter (fun m => decide (m ∉ extra)) = base := by
    rw [List.filter_eq_self]
    intro a ha
    simp only [decide_eq_true_eq]
    intro hmem
    exact h a hmem ha
  have h2 : extra.filter (fun m => decide (m ∉ extra)) = [] := by
    rw [List.filter_eq_nil_iff]
    intro a ha
    simp only [decide_eq_true_eq, Decidable.not_not]
    exact ha
  rw [h1, h2, List.append_nil]

lemma undo_after_finish (s1 : SysState) (jid : Nat) (c : String)
    (run : RunResult) (hfin : run.finalState = .completed)
    (extra : List Row) (hm : run.mems = s1.mems ++ extra)
    (ha : run.added = extra)
    (hni : ∀ x ∈ extra, x ∉ s1.mems) :
    (undoOp (finishJob s1 jid c run) c).1 = .ok () ∧
    (undoOp (finishJob s1 jid c run) c).2.mems = s1.mems ∧
    (undoOp ((undoOp (finishJob s1 jid c run) c).2) c).1 =
      .error .notFound := by
  have hev : (finishJob s1 jid c run).events =
      ({ id := s1.nextEventId, jobId := some jid, etype := .bulk_add,
         collectionId := c, addedRows := extra } : Event) ::
        s1.events := by
    simp [finishJob, hfin, ha]
  have hmems : (finishJob s1 jid c run).mems = s1.mems ++ extra := by
    simp [finishJob, hm]
  have hUT : undoTarget (finishJob s1 jid c run) c =
      some { id := s1.nextEventId, jobId := some jid, etype := .bulk_add,
             collectionId := c, addedRows := extra } := by
    unfold undoTarget
    rw [hev, List.find?_cons_of_pos _ (by simp)]
    simp
  have hstep : undoOp (finishJob s1 jid c run) c =
      (.ok (),
       { finishJob s1 jid c run with
         mems := (finishJob s1 jid c run).mems.filter
           (fun m => decide (m ∉ extra)),
         events := { id := (finishJob s1 jid c run).nextEventId,
                     jobId := some jid, etype := .undo, collectionId := c,
                     addedRows := extra } ::
           (finishJob s1 jid c run).events,
         nextEventId := (finishJob s1 jid c run).nextEventId + 1 }) := by
    unfold undoOp
    rw [hUT]
  refine ⟨by rw [hstep], ?_, ?_⟩
  · rw [hstep]
    simp only
    rw [hmems]
    exact filter_append_not_mem s1.mems extra hni
  · rw [hstep]
    unfold undoOp undoTarget
    rw [show ({ finishJob s1 jid c run with
         mems := (finishJob s1 jid c run).mems.filter
           (fun m => decide (m ∉ extra)),
         events := { id := (finishJob s1 jid c run).nextEventId,
                     jobId := some jid, etype := .undo, collectionId := c,
                     addedRows := extra } ::
           (finishJob s1 jid c run).events,
         nextEventId := (finishJob s1 jid c run).nextEventId + 1 }
        : SysState).events =
      ({ id := (finishJob s1 jid c run).nextEventId, jobId := some jid,
         etype := .undo, collectionId := c, addedRows := extra } : Event)
        :: (finishJob s1 jid c run).events from rfl]
    rw [List.find?_cons_of_pos _ (by simp)]
    simp

/-- C1: for a completed bulk-add job (either strategy, no cancellation),
undoing its destination collection once succeeds, removes precisely the
membership rows the job added — leaving every pre-existing membership,
of that collection and of all others, exactly as before the job — and a
second undo on the same collection with no intervening bulk add fails
with NotFound. -/
theorem c1_undo_bulk_add (s : SysState) (r : AddRequest)
    (key : Option String) (jid : Nat) (s1 : SysState) (c : String)
    (hsub : submit s r key = (.created jid, s1))
    (htc : r.targetCollectionId = some c) :
    (∃ rows, (execAdd s r key none).2.mems = s.mems ++ rows) ∧
    (undoOp (execAdd s r key none).2 c).1 = .ok () ∧
    (undoOp (execAdd s r key none).2 c).2.mems = s.mems ∧
    (undoOp ((undoOp (execAdd s r key none).2 c).2) c).1 =
      .error .notFound := by
  obtain ⟨hpm, hpe, hpn⟩ := by
    have h := submit_preserves s r key
    rwa [hsub] at h
  cases hcids : r.company_ids with
  | some ids =>
      have hexec : (execAdd s r key none).2 =
          finishJob s1 jid c (runChunked c ids none s1.mems) := by
        unfold execAdd
        rw [hsub, htc, hcids]
        rfl
      have hfin : (runChunked c ids none s1.mems).finalState =
          .completed := by
        rw [runChunked_def]
        exact (runBatches_none c ids.dedup.length (batchesOf ids) 0 0
          s1.mems []).1
      obtain ⟨extra, hm, ha, hprop⟩ := by
        have h := runBatches_mems c ids.dedup.length none (batchesOf ids)
          0 0 s1.mems []
        rwa [← runChunked_def] at h
      rw [List.nil_append] at ha
      have hni : ∀ x ∈ extra, x ∉ s1.mems := fun x hx => (hprop x hx).1
      obtain ⟨u1, u2, u3⟩ := undo_after_finish s1 jid c
        (runChunked c ids none s1.mems) hfin extra hm ha hni
      rw [hexec]
      exact ⟨⟨extra, by rw [finishJob, hm, hpm]⟩, u1, by rw [u2, hpm], u3⟩
  | none =>
      have hexec : (execAdd s r key none).2 =
          finishJob s1 jid c
            (runSetBased (r.source_collection_id.getD "") c s1.mems) := by
        unfold execAdd
        rw [hsub, htc, hcids]
        rfl
      have hm : (runSetBased (r.source_collection_id.getD "") c
          s1.mems).mems = s1.mems ++
          (upsertRows s1.mems c
            (membersOf s1.mems (r.source_collection_id.getD ""))).2 :=
        upsertRows_fst _ _ _
      have hni : ∀ x ∈ (upsertRows s1.mems c
          (membersOf s1.mems (r.source_collection_id.getD ""))).2,
          x ∉ s1.mems := fun x hx => (upsertRows_mem _ _ _ x hx).1
      obtain ⟨u1, u2, u3⟩ := undo_after_finish s1 jid c
        (runSetBased (r.source_collection_id.getD "") c s1.mems) rfl
        (upsertRows s1.mems c
          (membersOf s1.mems (r.source_collection_id.getD ""))).2 hm rfl
        hni
      rw [hexec]
      exact ⟨⟨(upsertRows s1.mems c
          (membersOf s1.mems (r.source_collection_id.getD ""))).2,
        by rw [finishJob, hm, hpm]⟩, u1, by rw [u2, hpm], u3⟩

/-- C1 witness: a concrete bulk add of ids 1,2 into a collection already
holding id 5 is exactly reversed by one undo, and a second undo fails
with NotFound. -/
theorem c1_undo_bulk_add_witness :
    (∃ rows,
      (execAdd stateAFix reqExplicitFix none none).2.mems =
        stateAFix.mems ++ rows) ∧
    (undoOp (execAdd stateAFix reqExplicitFix none none).2 "B").1 =
      .ok () ∧
    (undoOp (execAdd stateAFix reqExplicitFix none none).2 "B").2.mems =
      stateAFix.mems ∧
    (undoOp ((undoOp (execAdd stateAFix reqExplicitFix none none).2 "B").2)
      "B").1 = .error .notFound :=
  c1_undo_bulk_add stateAFix reqExplicitFix none 0
    (submit stateAFix reqExplicitFix none).2 "B" (by rfl) (by rfl)

/-- C9: for every parsed SSE message, `useJobSSE` invokes its
`onProgress` callback exactly when the message's `type` field is not
`"keepalive"`; when it does, a missing `done`, `total` or `progress`
field is reported as 0 and a missing `state` field as `"unknown"`. -/
theorem c9_sse_keepalive_defaults (d : SSEData) :
    ((handleSSEMessage d = none) ↔ d.type = some "keepalive") ∧
    (∀ p, handleSSEMessage d = some p →
      (d.done = none → p.done = 0) ∧
      (d.total = none → p.total = 0) ∧
      (d.progress = none → p.progress = 0) ∧
      (d.state = none → p.state = "unknown")) := by
  constructor
  · unfold handleSSEMessage
    split
    · next h => simp [h]
    · next h => simp [h]
  · intro p hp
    unfold handleSSEMessage at hp
    split at hp
    · exact absurd hp (by simp)
    · have hps := Option.some.inj hp
      subst hps
      refine ⟨?_, ?_, ?_, ?_⟩ <;> intro h <;> simp [h, jsOrString]

/-- C9 witness: a concrete keepalive message is dropped, and a concrete
message with all payload fields missing reports `done` 0. -/
theorem c9_sse_keepalive_defaults_witness :
    handleSSEMessage sseKeepFix = none ∧
    ({ done := 0, total := 0, state := "unknown", progress := 0,
       error := none } : JobProgress).done = 0 :=
  ⟨(c9_sse_keepalive_defaults sseKeepFix).1.mpr (by rfl),
   (((c9_sse_keepalive_defaults sseMissFix).2
      { done := 0, total := 0, state := "unknown", progress := 0,
        error := none } (by rfl)).1 (by rfl))⟩

/-- C10 counterexample: the claim "every move or add request the UI
issues has a target collection distinct from the source collection" is
false on the source.  The dropdown never offers the selected collection,
but `targetCollectionId` is not cleared when the user switches the viewed
collection: choosing target "B" while viewing "A" and then switching to
"B" leaves the move-all button enabled and issues a request whose source
and target are both "B". -/
theorem c10_counterexample :
    issuedMoveAllRequest
      (uiRun [{ id := "A", collection_name := "Alpha" },
              { id := "B", collection_name := "Beta" }]
        { selectedCollectionId := "A", targetCollectionId := "",
          selectedRows := [] }
        [UIEvent.chooseTarget "B", UIEvent.switchCollection "B"]) =
      some ("B", "B") := by rfl

/-- C10 (amended): the move-target dropdown offers exactly the
collections whose id differs from the currently selected collection's id
(the stale-target escape shown in the counterexample is what keeps this
from extending to every issued request). -/
theorem c10_dropdown_excludes_selected (cols : List CollectionMeta)
    (selId : String) (c : CollectionMeta) :
    c ∈ moveTargetOptions cols selId ↔ (c ∈ cols ∧ c.id ≠ selId) := by
  simp [moveTargetOptions]

/-- C7 witness: a concrete dry run returns the state untouched and two
states with equal memberships agree on the estimate. -/
theorem c7_dry_run_pure_witness :
    (dryRunOp stateAFix reqDryFix).2 = stateAFix ∧
    (dryRunOp stateAFix reqDryFix).1 = (dryRunOp stateBFix reqDryFix).1 :=
  ⟨(c7_dry_run_pure stateAFix stateBFix reqDryFix).1,
   (c7_dry_run_pure stateAFix stateBFix reqDryFix).2 (by decide)⟩

end Harmonic

